import Mathlib

/-!
Verification development for the dev.to article analyzer
(`app/analyzer.py` of the devto-insight repository).

The Python analyzer is shallowly embedded: article payloads become
records over `Nat` and `Option`, pandas columns become record fields,
Python dict accumulation becomes insertion-ordered association lists,
Python's stable sorts become insertion sort, and the `random` module
becomes an explicit stream of pre-drawn naturals.  All definitions are
executable, so concrete scenarios evaluate by `decide`.
-/

namespace DevTo

/- Batteries marks the `Rat` arithmetic operations `@[irreducible]`, which
blocks `decide` on concrete rational computations; restore the default
reducibility for this file so the scenario theorems evaluate. -/
attribute [local semireducible] Rat.mul Rat.add Rat.sub Rat.inv Rat.ofScientific


/-- Raw `tags` / `tag_list` payload: the dev.to API serves either an
ordered list of strings or one comma-joined string. -/
inductive TagsVal where
  | strlist (l : List String)
  | str (s : String)
deriving DecidableEq

/-- One raw article as fetched by `fetch_all_articles` (and merged with the
detail payload).  A key that is absent, or whose value is `None`/`NaN`, is
`none`. -/
structure RawArticle where
  id : Nat
  publishedAt : Option String
  series : Option String
  tags : Option TagsVal
  tagList : Option TagsVal
  pageViewsCount : Option Nat
  publicReactionsCount : Option Nat
  commentsCount : Option Nat
  readingTimeMinutes : Option Nat
  bodyMarkdown : Option String
deriving DecidableEq

/-- Split a character list at every separator position, keeping empty
chunks: Python `str.split(sep)` semantics. -/
def splitAtPred (p : Char → Bool) : List Char → List (List Char)
  | [] => [[]]
  | c :: cs =>
    match splitAtPred p cs with
    | [] => [[]]
    | chunk :: rest => if p c then [] :: chunk :: rest else (c :: chunk) :: rest

/-- Split at every occurrence of one separator character. -/
def splitAtChar (sep : Char) : List Char → List (List Char) :=
  splitAtPred (fun c => c == sep)

/-- Python `str.strip()`: drop whitespace from both ends. -/
def stripChars (cs : List Char) : List Char :=
  ((cs.dropWhile Char.isWhitespace).reverse.dropWhile Char.isWhitespace).reverse

/-- Python `[t.strip() for t in s.split(",") if t.strip()]` as used on
comma-joined tag strings (analyzer lines 557-558). -/
def splitStrip (s : String) : List String :=
  ((splitAtChar ',' s.data).map (fun cs => String.mk (stripChars cs))).filter
    (fun t => t != "")

section Assoc

variable {κ β : Type} [DecidableEq κ]

/-- Shared shape of the analyzer's dict-accumulation loops:
`if k not in d: d[k] = zero` followed by an in-place update of `d[k]`
is one insert-or-update step on an insertion-ordered association list
(Python dicts preserve insertion order). -/
def updateAssoc (k : κ) (zero : β) (upd : β → β) : List (κ × β) → List (κ × β)
  | [] => [(k, upd zero)]
  | e :: rest => if e.1 = k then (e.1, upd e.2) :: rest else e :: updateAssoc k zero upd rest

/-- Value currently stored under a key, if any. -/
def assocView (k : κ) (l : List (κ × β)) : Option β :=
  (l.find? (fun e => e.1 == k)).map Prod.snd

end Assoc

section Sorting

variable {α κ : Type} [LinearOrder κ]

instance decRelKeyAsc (key : α → κ) : DecidableRel (fun a b => key a ≤ key b) :=
  fun a b => inferInstanceAs (Decidable (key a ≤ key b))

instance decRelKeyDesc (key : α → κ) : DecidableRel (fun a b => key b ≤ key a) :=
  fun a b => inferInstanceAs (Decidable (key b ≤ key a))

instance isTotalKeyAsc (key : α → κ) : IsTotal α (fun a b => key a ≤ key b) :=
  ⟨fun a b => le_total (key a) (key b)⟩

instance isTransKeyAsc (key : α → κ) : IsTrans α (fun a b => key a ≤ key b) :=
  ⟨fun _ _ _ hab hbc => le_trans hab hbc⟩

instance isTotalKeyDesc (key : α → κ) : IsTotal α (fun a b => key b ≤ key a) :=
  ⟨fun a b => le_total (key b) (key a)⟩

instance isTransKeyDesc (key : α → κ) : IsTrans α (fun a b => key b ≤ key a) :=
  ⟨fun _ _ _ hab hbc => le_trans hbc hab⟩

/-- Python `list.sort(key=...)`: stable, ascending by key. -/
def sortAsc (key : α → κ) (l : List α) : List α :=
  List.insertionSort (fun a b => key a ≤ key b) l

/-- Python `list.sort(key=..., reverse=True)`: stable, descending by key. -/
def sortDesc (key : α → κ) (l : List α) : List α :=
  List.insertionSort (fun a b => key b ≤ key a) l

end Sorting

/-! ### Field access with Python `dict.get(key, default)` semantics -/

/-- `article.get('page_views_count', 0)`. -/
def viewsD (a : RawArticle) : Nat := a.pageViewsCount.getD 0

/-- `article.get('public_reactions_count', 0)`. -/
def reactionsD (a : RawArticle) : Nat := a.publicReactionsCount.getD 0

/-- `article.get('comments_count', 0)`. -/
def commentsD (a : RawArticle) : Nat := a.commentsCount.getD 0

/-- Sort key applied to series members (analyzer line 263):
`x.get('published_at', '')`.  A missing timestamp yields the empty
string, which is the least key.  Python orders strings lexicographically
by code point, which is the lexicographic order on the character list
(embedded as `List Char`, whose order evaluates). -/
def pubKey (a : RawArticle) : List Char := (a.publishedAt.getD "").data

/-- Truthy check `if series_id:` on `article.get('series')` (lines
238-239): absent, `None`, and the empty string all fail it. -/
def seriesKey (a : RawArticle) : Option String :=
  match a.series with
  | none => none
  | some s => if s = "" then none else some s

/-! ### Series Extractor (`_extract_series_info`, lines 227-269) -/

/-- Per-series accumulator built in the first loop (lines 240-251).  The
`title` stays the raw series id: the payloads store `series` as a string,
so the `isinstance(..., dict)` refinement at lines 259-260 never fires. -/
structure SeriesAcc where
  articles : List RawArticle
  totalReactions : Nat
  totalComments : Nat
deriving DecidableEq

def seriesZero : SeriesAcc := ⟨[], 0, 0⟩

def seriesAdd (a : RawArticle) (d : SeriesAcc) : SeriesAcc :=
  ⟨d.articles ++ [a], d.totalReactions + reactionsD a, d.totalComments + commentsD a⟩

def groupStep (acc : List (String × SeriesAcc)) (a : RawArticle) :
    List (String × SeriesAcc) :=
  match seriesKey a with
  | none => acc
  | some sid => updateAssoc sid seriesZero (seriesAdd a) acc

def groupSeries (arts : List RawArticle) : List (String × SeriesAcc) :=
  arts.foldl groupStep []

/-- Finalized series record (lines 253-267): averages computed, member
articles sorted in place by `published_at` ascending. -/
structure SeriesData where
  title : String
  articles : List RawArticle
  totalReactions : Nat
  totalComments : Nat
  avgReadingTime : ℚ
deriving DecidableEq

def finalizeSeries (sid : String) (d : SeriesAcc) : SeriesData :=
  { title := sid
  , articles := sortAsc pubKey d.articles
  , totalReactions := d.totalReactions
  , totalComments := d.totalComments
  , avgReadingTime :=
      ((d.articles.map (fun a => (a.readingTimeMinutes.getD 0 : ℚ))).sum) /
        (d.articles.length : ℚ) }

def extractSeriesInfo (arts : List RawArticle) : List (String × SeriesData) :=
  (groupSeries arts).map (fun e => (e.1, finalizeSeries e.1 e.2))

/-- 1-based `series_part` assignment (lines 266-267): the article at sorted
index `i` receives part number `i + 1`. -/
def addParts (i : Nat) : List RawArticle → List (RawArticle × Nat)
  | [] => []
  | a :: rest => (a, i + 1) :: addParts (i + 1) rest

/-! ### `analyze_series_performance` (lines 660-723) -/

/-- Projection of one member article emitted in the series report
(lines 708-718). -/
structure ArticleBrief where
  id : Nat
  part : Nat
  reactions : Nat
  comments : Nat
  views : Nat
deriving DecidableEq

structure SeriesPerf where
  sid : String
  title : String
  articleCount : Nat
  totalReactions : Nat
  totalComments : Nat
  totalViews : Nat
  avgReactions : ℚ
  avgComments : ℚ
  avgViews : ℚ
  completionRate : ℚ
  articles : List ArticleBrief
deriving DecidableEq

/-- Completion-rate computation (lines 687-694): stays 0 unless the series
has more than one article and its first article has positive views. -/
def completionRateOf (arts : List RawArticle) : ℚ :=
  if 1 < arts.length then
    let vf := (arts.head?.map viewsD).getD 0
    let vl := (arts.getLast?.map viewsD).getD 0
    if 0 < vf then (vl : ℚ) / (vf : ℚ) else 0
  else 0

def briefOf (e : RawArticle × Nat) : ArticleBrief :=
  ⟨e.1.id, e.2, reactionsD e.1, commentsD e.1, viewsD e.1⟩

def mkSeriesPerf (sid : String) (d : SeriesData) : SeriesPerf :=
  let n := d.articles.length
  let tr := (d.articles.map reactionsD).sum
  let tc := (d.articles.map commentsD).sum
  let tv := (d.articles.map viewsD).sum
  { sid := sid
  , title := d.title
  , articleCount := n
  , totalReactions := tr
  , totalComments := tc
  , totalViews := tv
  , avgReactions := (tr : ℚ) / (n : ℚ)
  , avgComments := (tc : ℚ) / (n : ℚ)
  , avgViews := (tv : ℚ) / (n : ℚ)
  , completionRate := completionRateOf d.articles
  , articles := (addParts 0 d.articles).map briefOf }

def analyzeSeriesPerformance (series : List (String × SeriesData)) :
    List SeriesPerf :=
  sortDesc (fun p => p.totalReactions)
    ((series.filter (fun e => e.2.articles.length != 0)).map
      (fun e => mkSeriesPerf e.1 e.2))

/-! ### Randomness model

The `random` module is modelled by an explicit stream of pre-drawn
naturals; each call site consumes draws at fixed positions.  One
analysis run corresponds to one stream. -/

/-- `random.randint(a, b)`: a draw mapped into the closed range. -/
def randint (a b s : Nat) : Nat := a + s % (b - a + 1)

/-- Model of `random.uniform(0.8, 1.2)`: a rational draw in that range. -/
def uniformDraw (s : Nat) : ℚ := 4 / 5 + (s % 401 : ℚ) / 1000

/-- Synthetic view count of `calculate_metrics` (lines 426-432):
`int((reactions * 15 + comments * 25) * random.uniform(0.8, 1.2)) +
random.randint(50, 200)`; `int` truncation on a non-negative float is a
floor. -/
def synthViews (r c : Nat) (s1 s2 : Nat) : Nat :=
  (Rat.floor (((r * 15 + c * 25 : Nat) : ℚ) * uniformDraw s1)).toNat +
    randint 50 200 s2

/-- Per-article fallback of `get_detailed_articles` (lines 374-379): when
ONE merged payload has no usable `page_views_count`, draw
`random.randint(100, 2000)`; a present value is kept at this stage (but
see `detailedViewCounts` for the later batch overwrite). -/
def fallbackViewCount (pv : Option Nat) (s : Nat) : Nat :=
  match pv with
  | some v => v
  | none => randint 100 2000 s

/-- View counts after the per-article loop of `get_detailed_articles`
(lines 368-391), restricted to the view-count handling: the input
abstracts each successfully fetched merged article to its
`page_views_count`, and the article at position i consumes draw i. -/
def firstPassViews (rng : Nat → Nat) (pvs : List (Option Nat)) : List Nat :=
  pvs.enum.map (fun e => fallbackViewCount e.2 (rng e.1))

/-- View counts after the whole of `get_detailed_articles` (lines
366-401).  After the per-article pass, `view_count_exists` (line 396)
checks whether any article now has positive views; if articles exist and
none does — which, every drawn fallback being at least 100, happens
exactly when every article carried a present `page_views_count` equal to
0 — the loop at lines 399-401 overwrites EVERY article's count, present
real values included, with fresh `random.randint(100, 2000)` draws
(consuming draws after the first pass's). -/
def detailedViewCounts (rng : Nat → Nat) (pvs : List (Option Nat)) : List Nat :=
  if (firstPassViews rng pvs).isEmpty then firstPassViews rng pvs
  else if (firstPassViews rng pvs).any (fun v => decide (0 < v)) then
    firstPassViews rng pvs
  else (firstPassViews rng pvs).enum.map
    (fun e => randint 100 2000 (rng (pvs.length + e.1)))

/-! ### Metrics Engine: `calculate_metrics` normalization (lines 406-459) -/

/-- `_estimate_reading_time` (lines 1-26): `max(ceil(words / 225), 1)`,
with 1 for empty text.  Words are the maximal nonempty whitespace-free
chunks, as in Python `str.split()`. -/
def countWords (s : String) : Nat :=
  ((splitAtPred Char.isWhitespace s.data).filter (fun w => w != [])).length

def estimateReadingTime (text : String) : Nat :=
  if text = "" then 1
  else max ((countWords text + 224) / 225) 1

/-- One row of the DataFrame after the normalization part of
`calculate_metrics` (lines 421-459), with the two derived metric columns
of lines 456-459. -/
structure ProcArticle where
  id : Nat
  tags : Option TagsVal
  tagList : Option TagsVal
  views : Nat
  reactions : Nat
  comments : Nat
  readingTime : Nat
  engRate : ℚ
  timeEff : ℚ
deriving DecidableEq

/-- Normalize one row.  `viewsMissing` (resp. `rtMissing`) says the whole
`page_views_count` (resp. `reading_time_minutes`) column was absent or
all-NaN, in which case views are synthesized (resp. reading time is
estimated from the body); otherwise `fillna(0)` applies.  `engRate` is
the `engagement_ratio` column and `timeEff` the `time_efficiency`
column. -/
def processOne (viewsMissing rtMissing : Bool) (rng : Nat → Nat) (i : Nat)
    (a : RawArticle) : ProcArticle :=
  let r := a.publicReactionsCount.getD 0
  let c := a.commentsCount.getD 0
  let v := if viewsMissing then synthViews r c (rng (2 * i)) (rng (2 * i + 1))
           else a.pageViewsCount.getD 0
  let rt := if rtMissing then estimateReadingTime (a.bodyMarkdown.getD "")
            else a.readingTimeMinutes.getD 0
  { id := a.id, tags := a.tags, tagList := a.tagList, views := v
  , reactions := r, comments := c, readingTime := rt
  , engRate := ((r + c : Nat) : ℚ) / ((max v 1 : Nat) : ℚ)
  , timeEff := ((r : Nat) : ℚ) / ((max rt 1 : Nat) : ℚ) }

/-- The normalization pass over the whole DataFrame.  A column is absent
from a DataFrame built from dicts exactly when every dict lacks the key
(and `isna().all()` likewise means every value is missing). -/
def processArticles (rng : Nat → Nat) (arts : List RawArticle) :
    List ProcArticle :=
  let vm := arts.all (fun a => a.pageViewsCount == none)
  let rm := arts.all (fun a => a.readingTimeMinutes == none)
  arts.enum.map (fun e => processOne vm rm rng e.1 e.2)

/-! ### Tag analysis (`_analyze_tag_performance`, lines 525-594) -/

/-- Per-row tag extraction (lines 549-564) once the tag column is chosen.
A list value is used as-is (no stripping); anything else is stringified,
split on commas, stripped and cleared of empties.  A row that lacks the
value while the column exists holds pandas NaN, and `str(nan)` is the
string "nan", so such a row contributes the single tag `"nan"`. -/
def pandasRowTags : Option TagsVal → List String
  | some (TagsVal.strlist l) => l
  | some (TagsVal.str s) => splitStrip s
  | none => splitStrip "nan"

/-- Running totals per tag (lines 570-581). -/
structure TagAcc where
  count : Nat
  views : Nat
  reactions : Nat
  comments : Nat
deriving DecidableEq

def tagZero : TagAcc := ⟨0, 0, 0, 0⟩

def tagAdd (v r c : Nat) (s : TagAcc) : TagAcc :=
  ⟨s.count + 1, s.views + v, s.reactions + r, s.comments + c⟩

/-- The fields of one DataFrame row that the tag passes read.  The count
fields appear as `int(row.get(..., 0))`; per the ingestion invariant
(§3) every article reaching this pass carries them, so they are plain
naturals here. -/
structure TagRow where
  tags : Option TagsVal
  tagList : Option TagsVal
  views : Nat
  reactions : Nat
  comments : Nat
deriving DecidableEq

/-- Tag loop body for one row (lines 566-581): empty tags are skipped, and
every other tag occurrence bumps that tag's accumulator — the dict
inserts zeros for a first occurrence and then increments in place. -/
def accRow (useTags : Bool) (acc : List (String × TagAcc)) (row : TagRow) :
    List (String × TagAcc) :=
  (pandasRowTags (if useTags then row.tags else row.tagList)).foldl
    (fun a t =>
      if t = "" then a
      else updateAssoc t tagZero (tagAdd row.views row.reactions row.comments) a)
    acc

structure TagStat where
  tag : String
  count : Nat
  views : Nat
  reactions : Nat
  comments : Nat
  avgViews : ℚ
  avgReactions : ℚ
  avgComments : ℚ
  engagement : ℚ
deriving DecidableEq

/-- Averages and engagement computed after accumulation (lines 583-588). -/
def finalizeTag (e : String × TagAcc) : TagStat :=
  ⟨e.1, e.2.count, e.2.views, e.2.reactions, e.2.comments
  , (e.2.views : ℚ) / (e.2.count : ℚ)
  , (e.2.reactions : ℚ) / (e.2.count : ℚ)
  , (e.2.comments : ℚ) / (e.2.count : ℚ)
  , ((e.2.reactions + e.2.comments : Nat) : ℚ) / ((max e.2.views 1 : Nat) : ℚ)⟩

/-- `_analyze_tag_performance`: choose the tag column — `tags` if any row
carries it, else `tag_list`, else return [] (lines 537-546; a column
exists in a DataFrame built from dicts exactly when some dict has the
key) — accumulate per (article, tag) occurrence, average, then sort
descending by total views with Python's stable sort (lines 590-592). -/
def analyzeTagPerformance (rows : List TagRow) : List TagStat :=
  if rows.any (fun r => r.tags.isSome) then
    sortDesc (fun s => s.views) ((rows.foldl (accRow true) []).map finalizeTag)
  else if rows.any (fun r => r.tagList.isSome) then
    sortDesc (fun s => s.views) ((rows.foldl (accRow false) []).map finalizeTag)
  else []

/-! ### Overall stats (`_calculate_overall_stats`, lines 638-658) -/

/-- pandas `Series.mean()` followed by `float(...)`: `none` models the NaN
that the mean of an empty column yields. -/
def colMean (l : List Nat) : Option ℚ :=
  if l.length = 0 then none
  else some (((l.map (fun n => (n : ℚ))).sum) / (l.length : ℚ))

/-- Tags of one article for the most-used-tags count: list used as-is,
comma-joined string split and stripped, nothing otherwise. -/
def tagsOfVal : Option TagsVal → List String
  | some (TagsVal.strlist l) => l
  | some (TagsVal.str s) => splitStrip s
  | none => []

structure OverallStats where
  totalArticles : Nat
  totalViews : Nat
  totalReactions : Nat
  totalComments : Nat
  avgViews : Option ℚ
  avgReactions : Option ℚ
  avgComments : Option ℚ
  avgReadingTime : Option ℚ
  mostUsedTags : List String
deriving DecidableEq

/-- Modelled from the spec: the method `_get_most_used_tags` is invoked at
analyzer line 657 but its definition is missing from the repository
sources; §4.3 of the spec defines it as "the 5 most-frequently-used tags
by raw post count".  Tag occurrences are counted per (article, tag) pair
and the 5 most frequent are returned, most frequent first. -/
def getMostUsedTags (arts : List ProcArticle) : List String :=
  let counts := arts.foldl
    (fun acc a =>
      (tagsOfVal a.tags).foldl
        (fun ac t => if t = "" then ac else updateAssoc t 0 (fun n => n + 1) ac)
        acc)
    []
  ((sortDesc (fun e => e.2) counts).take 5).map Prod.fst

def calculateOverallStats (arts : List ProcArticle) : OverallStats :=
  { totalArticles := arts.length
  , totalViews := (arts.map (fun p => p.views)).sum
  , totalReactions := (arts.map (fun p => p.reactions)).sum
  , totalComments := (arts.map (fun p => p.comments)).sum
  , avgViews := colMean (arts.map (fun p => p.views))
  , avgReactions := colMean (arts.map (fun p => p.reactions))
  , avgComments := colMean (arts.map (fun p => p.comments))
  , avgReadingTime := colMean (arts.map (fun p => p.readingTime))
  , mostUsedTags := getMostUsedTags arts }

def toTagRow (p : ProcArticle) : TagRow :=
  ⟨p.tags, p.tagList, p.views, p.reactions, p.comments⟩

/-- The aggregates of `calculate_metrics` that the claims address:
the normalization pass with its derived columns, the tag aggregation and
the overall stats (the rankings and time-of-day groupings are separate
outputs of the same dict). -/
structure MetricsOut where
  processed : List ProcArticle
  tagPerformance : List TagStat
  overallStats : OverallStats
deriving DecidableEq

def calculateMetrics (rng : Nat → Nat) (arts : List RawArticle) : MetricsOut :=
  let procs := processArticles rng arts
  { processed := procs
  , tagPerformance := analyzeTagPerformance (procs.map toTagRow)
  , overallStats := calculateOverallStats procs }

/-! ### `generate_tag_recommendations` (lines 860-1002) -/

/-- One recommendation group, restricted to the payload the claims
inspect: the `metrics` sublists (copies of the averages) are left out;
the combinations group stores its pairs in `combos` and no `tags` key,
the other groups the reverse. -/
structure RecGroup where
  rtype : String
  title : String
  tags : List String
  combos : List (List String)
deriving DecidableEq

/-- `tuple(sorted([a, b]))` (line 942). -/
def comboKey (a b : String) : String × String :=
  if a ≤ b then (a, b) else (b, a)

/-- Per-row tag extraction of the combinations pass (lines 929-937): the
branch order differs from the aggregation pass — list/str on `tags`,
then list/str on `tag_list` — and a NaN row yields no tags. -/
def comboRowTags (row : TagRow) : List String :=
  match row.tags with
  | some (TagsVal.strlist l) => l
  | some (TagsVal.str s) => splitStrip s
  | none =>
    match row.tagList with
    | some (TagsVal.strlist l) => l
    | some (TagsVal.str s) => splitStrip s
    | none => []

/-- All index pairs i < j of one tag list (lines 940-942).  The `if
len(tags) >= 2` guard is redundant: shorter lists yield no pairs. -/
def pairCombos : List String → List (String × String)
  | [] => []
  | t :: rest => rest.map (fun u => comboKey t u) ++ pairCombos rest

/-- Pair accumulation (lines 943-962): linear search by combo, counting
occurrences and total engagement; the incrementally-maintained
`avg_engagement` always equals total over count, which is how it is read
back at the sort. -/
def accCombos (acc : List ((String × String) × (Nat × Nat))) (row : TagRow) :
    List ((String × String) × (Nat × Nat)) :=
  (pairCombos (comboRowTags row)).foldl
    (fun a k =>
      updateAssoc k (0, 0)
        (fun p => (p.1 + 1, p.2 + (row.reactions + row.comments))) a)
    acc

/-- Python `str.lower()` (tags here are ASCII). -/
def pyLower (s : String) : String :=
  String.mk (s.data.map Char.toLower)

def trendingTags : List String :=
  ["react", "ai", "machinelearning", "javascript", "python"]

/-- The tag performance list after the in-place re-sort by average
engagement (line 877); all later reads of `tag_performance` in
`generate_tag_recommendations` see this order. -/
def tpSorted (rows : List TagRow) : List TagStat :=
  sortDesc (fun s => s.avgReactions + s.avgComments) (analyzeTagPerformance rows)

/-- Group 1, *Top performing* (lines 883-898): present exactly when at
least 3 tag entries exist; its tags are the first 3 of the
engagement-sorted performance list. -/
def topGroupOf (rows : List TagRow) : List RecGroup :=
  if 3 ≤ (tpSorted rows).length then
    [⟨"top_performing", "Top Performing Tags",
      ((tpSorted rows).take 3).map (fun s => s.tag), []⟩]
  else []

/-- Filtered and re-sorted underused tag list (lines 901-902). -/
def underusedList (rows : List TagRow) : List TagStat :=
  sortDesc (fun s => s.avgReactions + s.avgComments)
    ((tpSorted rows).filter (fun s => decide (s.count ≤ 2) &&
      decide (0 < s.avgReactions + s.avgComments)))

/-- Group 2, *Underused high performers* (lines 904-919). -/
def underGroupOf (rows : List TagRow) : List RecGroup :=
  if (underusedList rows).isEmpty then []
  else [⟨"underused", "Underused High-Performing Tags",
    ((underusedList rows).take 3).map (fun s => s.tag), []⟩]

/-- Pairs kept for group 3 (lines 964-966): on at least 2 articles, sorted
descending by average engagement. -/
def bestCombos (rows : List TagRow) : List ((String × String) × (Nat × Nat)) :=
  sortDesc (fun e => ((e.2.2 : ℚ) / (e.2.1 : ℚ)))
    ((rows.foldl accCombos []).filter (fun e => decide (2 ≤ e.2.1)))

/-- Group 3, *Tag-pair combinations* (lines 968-981). -/
def comboGroupOf (rows : List TagRow) : List RecGroup :=
  if (bestCombos rows).isEmpty then []
  else [⟨"combinations", "Powerful Tag Combinations", [],
    ((bestCombos rows).take 3).map (fun e => [e.1.1, e.1.2])⟩]

/-- Trending tags the caller uses (lines 987-992): first case-insensitive
match per trending tag, in trending order. -/
def trendMatchesOf (rows : List TagRow) : List TagStat :=
  trendingTags.filterMap
    (fun t => (tpSorted rows).find? (fun u => pyLower t == pyLower u.tag))

/-- Group 4, *Trending matches* (lines 994-1000). -/
def trendGroupOf (rows : List TagRow) : List RecGroup :=
  if (trendMatchesOf rows).isEmpty then []
  else [⟨"trending", "Your Tags That Are Trending",
    (trendMatchesOf rows).map (fun s => s.tag), []⟩]

/-- `generate_tag_recommendations`: up to four groups, each appended only
when its data is available (an empty `recommendations` list results for
no articles, matching the early return at lines 867-871). -/
def generateTagRecommendations (rows : List TagRow) : List RecGroup :=
  topGroupOf rows ++ underGroupOf rows ++ comboGroupOf rows ++ trendGroupOf rows

/-! ### Derived views used to state the claims -/

/-- Articles of `arts` carrying the series id `sid`, in fetch order. -/
def seriesMembers (sid : String) (arts : List RawArticle) : List RawArticle :=
  arts.filter (fun a => seriesKey a == some sid)

/-- Member-article list currently grouped under a series id. -/
def seriesArticlesView (sid : String) (l : List (String × SeriesAcc)) :
    List RawArticle :=
  ((assocView sid l).getD seriesZero).articles

/-- Total count recorded for a tag across a TagStat list (with unique tag
keys this is the count of the tag's stat, and 0 when absent). -/
def statCountOf (t : String) (stats : List TagStat) : Nat :=
  ((stats.filter (fun s => s.tag == t)).map (fun s => s.count)).sum

/-- Count recorded for a tag in the running accumulator. -/
def accCountOf (t : String) (acc : List (String × TagAcc)) : Nat :=
  ((acc.filter (fun e => e.1 == t)).map (fun e => e.2.count)).sum

/-- Number of occurrences of a tag over all rows, counting one per
(article, tag-occurrence) pair — duplicates inside one article count
separately. -/
def tagOccCount (useTags : Bool) (t : String) (rows : List TagRow) : Nat :=
  (rows.map
    (fun r => (pandasRowTags (if useTags then r.tags else r.tagList)).count t)).sum

/-- Ordering required by claim C5, stated from the spec's words: ascending
by `published_at` with articles lacking a timestamp placed last. -/
def missingLastLE (x y : Option String) : Bool :=
  match x, y with
  | some a, some b => decide (a ≤ b)
  | some _, none => true
  | none, none => true
  | none, some _ => false

def orderedByBool (le : α → α → Bool) : List α → Bool
  | [] => true
  | [_] => true
  | x :: y :: rest => le x y && orderedByBool le (y :: rest)

def missingTimestampLastOrdered (l : List RawArticle) : Bool :=
  orderedByBool missingLastLE (l.map (fun a => a.publishedAt))

/-! ### Concrete inputs for the scenario theorems -/

/-- Shorthand raw-article constructor: id, published_at, series, tags,
views, reactions, comments, reading time. -/
def mkArt (i : Nat) (pub ser : Option String) (tg : Option TagsVal)
    (pv r c rt : Option Nat) : RawArticle :=
  ⟨i, pub, ser, tg, none, pv, r, c, rt, none⟩

/-- Series member with no `published_at` at all. -/
def artS1 : RawArticle :=
  mkArt 1 none (some "S") none (some 500) (some 3) (some 1) (some 4)

/-- Series member published on a definite date. -/
def artS2 : RawArticle :=
  mkArt 2 (some "2023-01-06T00:00:00Z") (some "S") none (some 100) (some 2)
    (some 0) (some 5)

def artsS : List RawArticle := [artS1, artS2]

/-- The series record the extractor builds from `artsS`. -/
def seriesS : SeriesData := finalizeSeries "S" ⟨[artS1, artS2], 5, 1⟩

def rngZero : Nat → Nat := fun _ => 0

def rngOne : Nat → Nat := fun _ => 1

/-- Article with real views for the C1 witness. -/
def artE : RawArticle :=
  mkArt 7 none none none (some 100) (some 10) (some 1) (some 5)

def procE : ProcArticle := processOne false false rngZero 0 artE

/-- Scenario B input: three articles all tagged "python", reactions
10/20/30, comments 1/2/3, views 100 each. -/
def rows6 : List TagRow :=
  [⟨some (TagsVal.strlist ["python"]), none, 100, 10, 1⟩,
   ⟨some (TagsVal.strlist ["python"]), none, 100, 20, 2⟩,
   ⟨some (TagsVal.strlist ["python"]), none, 100, 30, 3⟩]

/-- The single stat scenario B produces. -/
def statPython : TagStat := finalizeTag ("python", ⟨3, 300, 60, 6⟩)

/-- Four tags where the top 3 by total views (a, b, c) differ from the top
3 by average engagement (d first). -/
def rows7 : List TagRow :=
  [⟨some (TagsVal.strlist ["a"]), none, 1000, 0, 0⟩,
   ⟨some (TagsVal.strlist ["b"]), none, 900, 0, 0⟩,
   ⟨some (TagsVal.strlist ["c"]), none, 800, 0, 0⟩,
   ⟨some (TagsVal.strlist ["d"]), none, 1, 50, 0⟩]

/-- The group the code emits on `rows7`. -/
def topGroup7 : RecGroup :=
  ⟨"top_performing", "Top Performing Tags", ["d", "a", "b"], []⟩

/-- One article whose comma-joined tag string repeats a tag. -/
def rows8 : List TagRow :=
  [⟨some (TagsVal.str "python,python"), none, 100, 10, 1⟩]

/-! ## Facts about the embedding -/

section AssocFacts

variable {κ β : Type} [DecidableEq κ]

theorem keys_updateAssoc (k : κ) (z : β) (u : β → β) (l : List (κ × β)) :
    (updateAssoc k z u l).map Prod.fst =
      if k ∈ l.map Prod.fst then l.map Prod.fst else l.map Prod.fst ++ [k] := by
  induction l with
  | nil => simp [updateAssoc]
  | cons e rest ih =>
    by_cases h : e.1 = k
    · simp [updateAssoc, h]
    · have hne : ¬ k = e.1 := fun hc => h hc.symm
      by_cases hk : k ∈ rest.map Prod.fst
      · simp [updateAssoc, h, ih, hk, hne]
      · simp [updateAssoc, h, ih, hk, hne]

theorem nodupKeys_updateAssoc (k : κ) (z : β) (u : β → β) {l : List (κ × β)}
    (h : (l.map Prod.fst).Nodup) :
    ((updateAssoc k z u l).map Prod.fst).Nodup := by
  rw [keys_updateAssoc]
  split_ifs with hk
  · exact h
  · simp [List.nodup_append, h, hk]

theorem assocView_nil (k : κ) : assocView k ([] : List (κ × β)) = none := rfl

theorem assocView_cons (k : κ) (e : κ × β) (l : List (κ × β)) :
    assocView k (e :: l) = if e.1 = k then some e.2 else assocView k l := by
  by_cases h : e.1 = k
  · rw [if_pos h]
    unfold assocView
    rw [List.find?_cons_of_pos _ (by simp [h])]
    rfl
  · rw [if_neg h]
    unfold assocView
    rw [List.find?_cons_of_neg _ (by simp [h])]

theorem assocView_updateAssoc_self (k : κ) (z : β) (u : β → β) (l : List (κ × β)) :
    assocView k (updateAssoc k z u l) = some (u ((assocView k l).getD z)) := by
  induction l with
  | nil => simp [updateAssoc, assocView_cons, assocView_nil]
  | cons e rest ih =>
    by_cases h : e.1 = k
    · simp [updateAssoc, h, assocView_cons]
    · simp only [updateAssoc, if_neg h]
      rw [assocView_cons, if_neg h, assocView_cons, if_neg h]
      exact ih

theorem assocView_updateAssoc_ne {k q : κ} (hne : q ≠ k) (z : β) (u : β → β)
    (l : List (κ × β)) :
    assocView q (updateAssoc k z u l) = assocView q l := by
  have hkq : ¬ k = q := fun hc => hne hc.symm
  induction l with
  | nil =>
    simp [updateAssoc, assocView_cons, assocView_nil, hkq]
  | cons e rest ih =>
    by_cases h : e.1 = k
    · have hq : ¬ e.1 = q := by rw [h]; exact hkq
      simp [updateAssoc, h, assocView_cons, hq, hkq]
    · simp only [updateAssoc, if_neg h]
      rw [assocView_cons, assocView_cons]
      by_cases hq : e.1 = q
      · rw [if_pos hq, if_pos hq]
      · rw [if_neg hq, if_neg hq]
        exact ih

theorem snd_mem_updateAssoc {P : β → Prop} (k : κ) (z : β) (u : β → β)
    {l : List (κ × β)} (hl : ∀ e ∈ l, P e.2) (hz : P (u z))
    (hu : ∀ v, P v → P (u v)) :
    ∀ e ∈ updateAssoc k z u l, P e.2 := by
  induction l with
  | nil => intro e he; simp [updateAssoc] at he; rw [he]; exact hz
  | cons f rest ih =>
    intro e he
    by_cases h : f.1 = k
    · simp only [updateAssoc, if_pos h, List.mem_cons] at he
      rcases he with he | he
      · rw [he]; exact hu f.2 (hl f (List.mem_cons_self f rest))
      · exact hl e (List.mem_cons_of_mem f he)
    · simp only [updateAssoc, if_neg h, List.mem_cons] at he
      rcases he with he | he
      · rw [he]; exact hl f (List.mem_cons_self f rest)
      · exact ih (fun x hx => hl x (List.mem_cons_of_mem f hx)) e he

theorem find?_eq_of_mem_of_nodupKeys {l : List (κ × β)}
    (h : (l.map Prod.fst).Nodup) {e : κ × β} (he : e ∈ l) :
    l.find? (fun x => x.1 == e.1) = some e := by
  induction l with
  | nil => cases he
  | cons f rest ih =>
    rcases List.mem_cons.mp he with he1 | he1
    · rw [he1]; simp [List.find?]
    · have hf : ¬ f.1 = e.1 := by
        intro hc
        have : e.1 ∈ rest.map Prod.fst := List.mem_map.mpr ⟨e, he1, rfl⟩
        rw [← hc] at this
        exact (List.nodup_cons.mp h).1 this
      have : (f.1 == e.1) = false := by simp [hf]
      simp only [List.find?, this]
      exact ih (List.nodup_cons.mp h).2 he1

end AssocFacts

section SortingFacts

variable {α κ : Type} [LinearOrder κ]

theorem sortAsc_sorted (key : α → κ) (l : List α) :
    (sortAsc key l).Pairwise (fun a b => key a ≤ key b) :=
  List.sorted_insertionSort _ l

theorem sortDesc_sorted (key : α → κ) (l : List α) :
    (sortDesc key l).Pairwise (fun a b => key b ≤ key a) :=
  List.sorted_insertionSort _ l

theorem sortAsc_perm (key : α → κ) (l : List α) : (sortAsc key l).Perm l :=
  List.perm_insertionSort _ l

theorem sortDesc_perm (key : α → κ) (l : List α) : (sortDesc key l).Perm l :=
  List.perm_insertionSort _ l

theorem filter_key_orderedInsert [DecidableEq κ] (key : α → κ) (k : κ) (x : α)
    (l : List α) :
    (List.orderedInsert (fun a b => key a ≤ key b) x l).filter
        (fun a => decide (key a = k)) =
      if key x = k then
        x :: l.filter (fun a => decide (key a = k))
      else l.filter (fun a => decide (key a = k)) := by
  induction l with
  | nil => by_cases h : key x = k <;> simp [List.orderedInsert, h]
  | cons y ys ih =>
    rw [List.orderedInsert]
    by_cases hxy : key x ≤ key y
    · rw [if_pos hxy]
      by_cases h : key x = k <;> simp [List.filter_cons, h]
    · rw [if_neg hxy]
      have hyx : key y < key x := lt_of_not_le hxy
      by_cases hy : key y = k
      · have h : ¬ key x = k := fun hc => (ne_of_lt hyx) (hy.trans hc.symm)
        simp [List.filter_cons, hy, h, ih]
      · simp only [List.filter_cons, ih]
        by_cases h : key x = k <;> simp [h, hy]

/-- Stability of the embedded Python sort: elements sharing one key value
keep their original relative order. -/
theorem filter_key_sortAsc [DecidableEq κ] (key : α → κ) (k : κ) (l : List α) :
    (sortAsc key l).filter (fun a => decide (key a = k)) =
      l.filter (fun a => decide (key a = k)) := by
  induction l with
  | nil => rfl
  | cons x xs ih =>
    show (List.orderedInsert _ x (List.insertionSort _ xs)).filter _ = _
    rw [filter_key_orderedInsert key k x (List.insertionSort _ xs)]
    have ih2 : (List.insertionSort (fun a b => key a ≤ key b) xs).filter
        (fun a => decide (key a = k)) = xs.filter (fun a => decide (key a = k)) := ih
    by_cases h : key x = k
    · rw [if_pos h, ih2]
      simp [List.filter_cons, h]
    · rw [if_neg h, ih2]
      simp [List.filter_cons, h]

end SortingFacts

/-! ## Facts about the Series Extractor -/

theorem addParts_snd (l : List RawArticle) : ∀ i : Nat,
    (addParts i l).map (fun e => e.2) = List.range' (i + 1) l.length := by
  induction l with
  | nil => intro i; rfl
  | cons a rest ih =>
    intro i
    show (i + 1) :: (addParts (i + 1) rest).map (fun e => e.2) =
      List.range' (i + 1) (rest.length + 1)
    rw [ih (i + 1), List.range'_succ]

theorem briefs_head_views (l : List RawArticle) (i : Nat) :
    (((addParts i l).map briefOf).head?).map (fun b => b.views) =
      (l.head?).map viewsD := by
  cases l <;> rfl

theorem briefs_getLast_views (l : List RawArticle) : ∀ i : Nat,
    (((addParts i l).map briefOf).getLast?).map (fun b => b.views) =
      (l.getLast?).map viewsD := by
  induction l with
  | nil => intro i; rfl
  | cons a rest ih =>
    cases rest with
    | nil => intro i; rfl
    | cons b t =>
      intro i
      show ((briefOf (a, i + 1) :: briefOf (b, i + 2) ::
        (addParts (i + 2) t).map briefOf).getLast?).map (fun x => x.views) = _
      rw [List.getLast?_cons_cons]
      have h2 : briefOf (b, i + 2) :: (addParts (i + 2) t).map briefOf =
          (addParts (i + 1) (b :: t)).map briefOf := rfl
      rw [h2, ih (i + 1), List.getLast?_cons_cons]

theorem nodupKeys_groupSeries_aux (arts : List RawArticle) :
    ∀ acc : List (String × SeriesAcc), (acc.map Prod.fst).Nodup →
      ((arts.foldl groupStep acc).map Prod.fst).Nodup := by
  induction arts with
  | nil => exact fun _ h => h
  | cons a rest ih =>
    intro acc h
    rw [List.foldl_cons]
    apply ih
    unfold groupStep
    cases hsk : seriesKey a with
    | none => exact h
    | some sid => exact nodupKeys_updateAssoc sid _ _ h

theorem seriesArticlesView_foldl (arts : List RawArticle) :
    ∀ (acc : List (String × SeriesAcc)) (sid : String),
      seriesArticlesView sid (arts.foldl groupStep acc) =
        seriesArticlesView sid acc ++ seriesMembers sid arts := by
  induction arts with
  | nil => intro acc sid; simp [seriesMembers]
  | cons a rest ih =>
    intro acc sid
    rw [List.foldl_cons, ih]
    cases hsk : seriesKey a with
    | none =>
      have h1 : groupStep acc a = acc := by unfold groupStep; rw [hsk]
      have h2 : seriesMembers sid (a :: rest) = seriesMembers sid rest := by
        simp [seriesMembers, List.filter_cons, hsk]
      rw [h1, h2]
    | some s2 =>
      by_cases hs : s2 = sid
      · subst hs
        have h1 : seriesArticlesView s2 (groupStep acc a) =
            seriesArticlesView s2 acc ++ [a] := by
          unfold groupStep
          rw [hsk]
          unfold seriesArticlesView
          rw [assocView_updateAssoc_self]
          rfl
        have h2 : seriesMembers s2 (a :: rest) = a :: seriesMembers s2 rest := by
          simp [seriesMembers, List.filter_cons, hsk]
        rw [h1, h2, List.append_assoc]
        rfl
      · have h1 : seriesArticlesView sid (groupStep acc a) =
            seriesArticlesView sid acc := by
          unfold groupStep
          rw [hsk]
          unfold seriesArticlesView
          rw [assocView_updateAssoc_ne (fun hc => hs hc.symm)]
        have h2 : seriesMembers sid (a :: rest) = seriesMembers sid rest := by
          simp [seriesMembers, List.filter_cons, hsk, hs]
        rw [h1, h2]

theorem mem_groupSeries_articles {arts : List RawArticle} {sid : String}
    {d : SeriesAcc} (h : (sid, d) ∈ groupSeries arts) :
    d.articles = seriesMembers sid arts := by
  have hn : ((groupSeries arts).map Prod.fst).Nodup :=
    nodupKeys_groupSeries_aux arts [] (by simp)
  have hf : (groupSeries arts).find? (fun x => x.1 == sid) = some (sid, d) :=
    find?_eq_of_mem_of_nodupKeys hn h
  have hv : assocView sid (arts.foldl groupStep []) = some d := by
    show assocView sid (groupSeries arts) = some d
    unfold assocView
    rw [hf]
    rfl
  have hfold := seriesArticlesView_foldl arts [] sid
  unfold seriesArticlesView at hfold
  rw [hv] at hfold
  simpa [assocView_nil, seriesZero] using hfold

/-- Claim C4 (confirmed): in every series report, `completion_rate` is 0
when the series has exactly one member article or when its first article
(in published order) has 0 views; otherwise it equals exactly
views(last article) / views(first article). -/
theorem series_completionRate_spec (arts : List RawArticle) (sp : SeriesPerf)
    (hmem : sp ∈ analyzeSeriesPerformance (extractSeriesInfo arts)) :
    (sp.articleCount = 1 → sp.completionRate = 0) ∧
    ((sp.articles.map (fun b => b.views)).head?.getD 0 = 0 →
      sp.completionRate = 0) ∧
    (1 < sp.articleCount →
      0 < (sp.articles.map (fun b => b.views)).head?.getD 0 →
      sp.completionRate =
        (((sp.articles.map (fun b => b.views)).getLast?.getD 0 : Nat) : ℚ) /
          (((sp.articles.map (fun b => b.views)).head?.getD 0 : Nat) : ℚ)) := by
  have hmem2 : sp ∈ ((extractSeriesInfo arts).filter
      (fun e => e.2.articles.length != 0)).map (fun e => mkSeriesPerf e.1 e.2) :=
    ((sortDesc_perm _ _).mem_iff).mp hmem
  obtain ⟨e, _, rfl⟩ := List.mem_map.mp hmem2
  have hhead : ((mkSeriesPerf e.1 e.2).articles.map (fun b => b.views)).head? =
      (e.2.articles.head?).map viewsD := by
    show (((addParts 0 e.2.articles).map briefOf).map (fun b => b.views)).head? = _
    rw [List.head?_map]
    exact briefs_head_views e.2.articles 0
  have hlast : ((mkSeriesPerf e.1 e.2).articles.map (fun b => b.views)).getLast? =
      (e.2.articles.getLast?).map viewsD := by
    show (((addParts 0 e.2.articles).map briefOf).map (fun b => b.views)).getLast? = _
    rw [List.getLast?_map]
    exact briefs_getLast_views e.2.articles 0
  refine ⟨?_, ?_, ?_⟩
  · intro h1
    have hl : e.2.articles.length = 1 := h1
    show completionRateOf e.2.articles = 0
    simp [completionRateOf, hl]
  · intro h0
    rw [hhead] at h0
    show completionRateOf e.2.articles = 0
    simp [completionRateOf, h0]
  · intro hlen hpos
    rw [hhead] at hpos
    rw [hhead, hlast]
    have hlen2 : 1 < e.2.articles.length := hlen
    show completionRateOf e.2.articles = _
    simp [completionRateOf, hlen2, hpos]

def perfS : SeriesPerf := mkSeriesPerf "S" seriesS

/-- Witness for the C4 theorem: the concrete two-article series `artsS`
with views 500 then 100 has completion rate 100/500. -/
theorem series_completionRate_witness :
    perfS.completionRate = (100 : ℚ) / 500 := by
  have h := (series_completionRate_spec artsS perfS (by decide)).2.2
    (by decide) (by decide)
  exact h.trans (by decide)

/-- Claim C5 counterexample (the claim is corrected): with one member
lacking `published_at` and one dated member, the extractor places the
undated article FIRST — its sort key is the empty string, the least key —
violating the claimed missing-timestamp-last ordering. -/
theorem seriesOrder_counterexample :
    ((extractSeriesInfo artsS).map (fun e => e.2.articles.map (fun a => a.id)))
      = [[1, 2]] ∧
    ((extractSeriesInfo artsS).map
      (fun e => missingTimestampLastOrdered e.2.articles)) = [false] ∧
    artsS.map (fun a => a.publishedAt) =
      [none, some "2023-01-06T00:00:00Z"] := by
  refine ⟨by decide, by decide, by decide⟩

/-- Claim C5 amended: within every series, members are sorted ascending by
the key `published_at or the empty string` — so an article lacking a
timestamp sorts FIRST, not last — the sort is stable with respect to
fetch order (articles sharing a key keep their original relative order),
and `series_part` is the 1-based position in the sorted order. -/
theorem seriesOrder_amended (arts : List RawArticle) (sid : String)
    (d : SeriesData) (hmem : (sid, d) ∈ extractSeriesInfo arts) :
    d.articles.Pairwise (fun a b => pubKey a ≤ pubKey b) ∧
    (∀ k : List Char, d.articles.filter (fun a => decide (pubKey a = k)) =
      (seriesMembers sid arts).filter (fun a => decide (pubKey a = k))) ∧
    (addParts 0 d.articles).map (fun e => e.2) =
      List.range' 1 d.articles.length := by
  obtain ⟨e, he, heq⟩ := List.mem_map.mp hmem
  have h1 : e.1 = sid := congrArg Prod.fst heq
  have h2 : finalizeSeries e.1 e.2 = d := congrArg Prod.snd heq
  subst h2
  subst h1
  have he2 : (e.1, e.2) ∈ groupSeries arts := by rw [Prod.mk.eta]; exact he
  have hartsEq : e.2.articles = seriesMembers e.1 arts :=
    mem_groupSeries_articles he2
  refine ⟨sortAsc_sorted pubKey e.2.articles, ?_, addParts_snd _ 0⟩
  intro k
  show (sortAsc pubKey e.2.articles).filter (fun a => decide (pubKey a = k)) = _
  rw [filter_key_sortAsc, hartsEq]

/-- Witness for the amended C5 theorem at the concrete series `artsS`. -/
theorem seriesOrder_amended_witness :
    seriesS.articles.Pairwise (fun a b => pubKey a ≤ pubKey b) ∧
    (addParts 0 seriesS.articles).map (fun e => e.2) =
      List.range' 1 seriesS.articles.length :=
  ⟨(seriesOrder_amended artsS "S" seriesS (by decide)).1,
   (seriesOrder_amended artsS "S" seriesS (by decide)).2.2⟩

/-! ## Metrics Engine facts -/

/-- Claim C1 (confirmed): for every article processed by
`calculate_metrics`, the `engagement_ratio` column equals
(reactions + comments) / max(views, 1); in particular it is non-negative
and well-defined even at 0 views, where it equals reactions + comments. -/
theorem engagement_formula (rng : Nat → Nat) (arts : List RawArticle)
    (p : ProcArticle) (hp : p ∈ (calculateMetrics rng arts).processed) :
    p.engRate = ((p.reactions + p.comments : Nat) : ℚ) /
      ((max p.views 1 : Nat) : ℚ) ∧
    0 ≤ p.engRate ∧
    (p.views = 0 → p.engRate = ((p.reactions + p.comments : Nat) : ℚ)) := by
  have hp2 : p ∈ arts.enum.map
      (fun e => processOne (arts.all (fun a => a.pageViewsCount == none))
        (arts.all (fun a => a.readingTimeMinutes == none)) rng e.1 e.2) := hp
  obtain ⟨e, _, rfl⟩ := List.mem_map.mp hp2
  have h1 : (processOne (arts.all (fun a => a.pageViewsCount == none))
      (arts.all (fun a => a.readingTimeMinutes == none)) rng e.1 e.2).engRate =
      (((processOne (arts.all (fun a => a.pageViewsCount == none))
          (arts.all (fun a => a.readingTimeMinutes == none)) rng e.1 e.2).reactions +
        (processOne (arts.all (fun a => a.pageViewsCount == none))
          (arts.all (fun a => a.readingTimeMinutes == none)) rng e.1 e.2).comments : Nat) : ℚ) /
      (((max (processOne (arts.all (fun a => a.pageViewsCount == none))
          (arts.all (fun a => a.readingTimeMinutes == none)) rng e.1 e.2).views 1 : Nat)) : ℚ) := rfl
  refine ⟨h1, ?_, ?_⟩
  · rw [h1]
    exact div_nonneg (Nat.cast_nonneg _) (Nat.cast_nonneg _)
  · intro h0
    rw [h1, h0]
    norm_num

/-- Witness for the C1 theorem at one concrete article with 100 views,
10 reactions and 1 comment. -/
theorem engagement_formula_witness :
    procE.engRate = (11 : ℚ) / 100 ∧ 0 ≤ procE.engRate := by
  have h := engagement_formula rngZero [artE] procE (by decide)
  exact ⟨h.1.trans (by decide), h.2.1⟩

/-- Claim C3 counterexample (the claim is corrected): on an empty article
set the overall stats do carry `total_articles = 0` and empty most-used
tags, but every per-article average is the mean of an empty column —
pandas NaN, modelled `none` — and in particular not the number 0. -/
theorem overallStats_empty_counterexample :
    (calculateMetrics rngZero []).overallStats.totalArticles = 0 ∧
    (calculateMetrics rngZero []).overallStats.mostUsedTags = [] ∧
    (calculateMetrics rngZero []).overallStats.avgViews = none ∧
    ¬ (calculateMetrics rngZero []).overallStats.avgViews = some 0 := by
  refine ⟨rfl, rfl, rfl, by decide⟩

/-- Claim C3 amended: on an empty article set every modelled aggregate
returns an empty or zero-valued structure without failing —
`total_articles = 0`, all totals 0, `most_used_tags = []`, empty
processed list and tag performance — but the four per-article averages
are NaN (`none`), not 0. -/
theorem overallStats_empty_amended (rng : Nat → Nat) :
    calculateMetrics rng [] =
      { processed := []
      , tagPerformance := []
      , overallStats :=
        { totalArticles := 0, totalViews := 0, totalReactions := 0
        , totalComments := 0, avgViews := none, avgReactions := none
        , avgComments := none, avgReadingTime := none, mostUsedTags := [] } } ∧
    analyzeSeriesPerformance (extractSeriesInfo []) = [] ∧
    generateTagRecommendations [] = [] :=
  ⟨rfl, rfl, rfl⟩

/-! ## Randomness of the synthesized view counts -/

/-- Claim C9 counterexample (the claim is corrected): the synthesized
pseudo-view-count is NOT a deterministic function of the article's
reactions and comments — it depends on fresh random draws, so two runs
over the same input can differ.  All three synthesis sites are refuted:
the per-article fallback `randint(100, 2000)` (lines 374-379), the batch
overwrite (lines 396-401) — which on a lone article with a present, real
`page_views_count` of 0 replaces even that present value by a draw — and
the `calculate_metrics` formula with `uniform(0.8, 1.2)` and
`randint(50, 200)` (lines 426-432). -/
theorem viewSynthesis_counterexample :
    fallbackViewCount none 0 = 100 ∧ fallbackViewCount none 1 = 101 ∧
    ¬ (∀ s1 s2 : Nat, fallbackViewCount none s1 = fallbackViewCount none s2) ∧
    detailedViewCounts rngZero [some 0] = [100] ∧
    detailedViewCounts rngOne [some 0] = [101] ∧
    detailedViewCounts rngZero [some 0] ≠ [0] ∧
    ¬ (∀ rng1 rng2 : Nat → Nat,
      detailedViewCounts rng1 [some 0] = detailedViewCounts rng2 [some 0]) ∧
    synthViews 10 1 0 0 = 190 ∧ synthViews 10 1 0 1 = 191 ∧
    ¬ (∀ s1 s2 t1 t2 : Nat, synthViews 10 1 s1 t1 = synthViews 10 1 s2 t2) := by
  refine ⟨by decide, by decide, fun h => absurd (h 0 1) (by decide),
    by decide, by decide, by decide,
    fun h => absurd (h rngZero rngOne) (by decide),
    by decide, by decide, fun h => absurd (h 0 0 0 1) (by decide)⟩

theorem firstPass_any_pos (rng : Nat → Nat) (p : Option Nat)
    (hne : p ≠ some 0) (pvs : List (Option Nat)) :
    ∀ k : Nat, p ∈ pvs →
      (((pvs.enumFrom k).map (fun e => fallbackViewCount e.2 (rng e.1))).any
        (fun v => decide (0 < v))) = true := by
  induction pvs with
  | nil => intro k h; cases h
  | cons q t ih =>
    intro k h
    rcases List.mem_cons.mp h with h1 | hmem
    · have hpos : 0 < fallbackViewCount q (rng k) := by
        rw [← h1]
        cases p with
        | none =>
          show 0 < randint 100 2000 (rng k)
          unfold randint
          omega
        | some v =>
          have hv : v ≠ 0 := fun hc => hne (by rw [hc])
          show 0 < v
          omega
      simp [List.enumFrom_cons, List.any_cons, hpos]
    · simp [List.enumFrom_cons, List.any_cons, ih (k + 1) hmem]

theorem firstPass_all_zero (rng : Nat → Nat) (pvs : List (Option Nat)) :
    ∀ k : Nat, (∀ p ∈ pvs, p = some 0) →
      (((pvs.enumFrom k).map (fun e => fallbackViewCount e.2 (rng e.1))).any
        (fun v => decide (0 < v))) = false := by
  induction pvs with
  | nil => intro k _; rfl
  | cons q t ih =>
    intro k h
    have hq : q = some 0 := h q (List.mem_cons_self q t)
    have ht := ih (k + 1) (fun p hp => h p (List.mem_cons_of_mem q hp))
    subst hq
    rw [List.enumFrom_cons, List.map_cons, List.any_cons, ht]
    rfl

/-- Claim C9 amended: the synthesized view counts are a function of the
articles AND the random draws, never of reactions and comments alone.
The per-article fallback keeps a present value and otherwise draws in
[100, 2000]; after the whole of `get_detailed_articles`, present values
survive exactly when the batch overwrite does not fire — i.e. unless
every article carries a present view count equal to 0 — and when it does
fire every article's count, present real values included, is replaced by
a fresh draw in [100, 2000].  Runs consuming different draws may differ
(live randomness), as the counterexample shows. -/
theorem viewSynthesis_amended :
    (∀ v s : Nat, fallbackViewCount (some v) s = v) ∧
    (∀ s : Nat, 100 ≤ fallbackViewCount none s ∧
      fallbackViewCount none s ≤ 2000) ∧
    (∀ (rng : Nat → Nat) (pvs : List (Option Nat)),
      (¬ ∀ p ∈ pvs, p = some 0) →
      detailedViewCounts rng pvs = firstPassViews rng pvs) ∧
    (∀ (rng : Nat → Nat) (pvs : List (Option Nat)),
      (∀ p ∈ pvs, p = some 0) →
      ∀ v ∈ detailedViewCounts rng pvs, 100 ≤ v ∧ v ≤ 2000) := by
  refine ⟨fun v s => rfl, fun s => ⟨Nat.le_add_right 100 _, ?_⟩, ?_, ?_⟩
  · show 100 + s % 1901 ≤ 2000
    have h : s % 1901 < 1901 := Nat.mod_lt s (by decide)
    omega
  · intro rng pvs h
    obtain ⟨p, hp, hne⟩ : ∃ p ∈ pvs, ¬ p = some 0 := by
      by_contra hc
      push_neg at hc
      exact h hc
    have hany : ((firstPassViews rng pvs).any (fun v => decide (0 < v))) = true :=
      firstPass_any_pos rng p hne pvs 0 hp
    unfold detailedViewCounts
    by_cases h1 : (firstPassViews rng pvs).isEmpty = true
    · rw [if_pos h1]
    · rw [if_neg h1, if_pos hany]
  · intro rng pvs hall v hv
    by_cases hemp : pvs = []
    · subst hemp
      cases hv
    have hfaz : ((firstPassViews rng pvs).any (fun v => decide (0 < v))) = false :=
      firstPass_all_zero rng pvs 0 hall
    have h1 : (firstPassViews rng pvs).isEmpty = false := by
      cases pvs with
      | nil => exact absurd rfl hemp
      | cons q t => rfl
    have hrw : detailedViewCounts rng pvs = (firstPassViews rng pvs).enum.map
        (fun e => randint 100 2000 (rng (pvs.length + e.1))) := by
      unfold detailedViewCounts
      simp [h1, hfaz]
    rw [hrw] at hv
    obtain ⟨e, _, rfl⟩ := List.mem_map.mp hv
    show 100 ≤ randint 100 2000 (rng (pvs.length + e.1)) ∧
      randint 100 2000 (rng (pvs.length + e.1)) ≤ 2000
    unfold randint
    have hb : (rng (pvs.length + e.1)) % 1901 < 1901 := Nat.mod_lt _ (by decide)
    constructor
    · omega
    · omega

/-- Witness for the amended C9 theorem: with one real view count (7) and
one absent one, the batch overwrite does not fire and the output is the
per-article pass — the present value 7 untouched, the absent one drawn. -/
theorem viewSynthesis_amended_witness :
    detailedViewCounts rngZero [some 7, none] = [7, 100] := by
  have h := viewSynthesis_amended.2.2.1 rngZero [some 7, none] (by decide)
  exact h.trans (by decide)

/-! ## Tag aggregation facts -/

theorem nodupKeys_tagFold (g : TagAcc → TagAcc) (ts : List String) :
    ∀ acc : List (String × TagAcc), (acc.map Prod.fst).Nodup →
      ((ts.foldl (fun a t => if t = "" then a else updateAssoc t tagZero g a)
        acc).map Prod.fst).Nodup := by
  induction ts with
  | nil => exact fun _ h => h
  | cons t ts ih =>
    intro acc h
    rw [List.foldl_cons]
    apply ih
    by_cases ht : t = ""
    · rw [if_pos ht]; exact h
    · rw [if_neg ht]; exact nodupKeys_updateAssoc t _ _ h

theorem nodupKeys_accRows (b : Bool) (rows : List TagRow) :
    ∀ acc : List (String × TagAcc), (acc.map Prod.fst).Nodup →
      ((rows.foldl (accRow b) acc).map Prod.fst).Nodup := by
  induction rows with
  | nil => exact fun _ h => h
  | cons row rows ih =>
    intro acc h
    rw [List.foldl_cons]
    exact ih _ (nodupKeys_tagFold _ _ acc h)

theorem countPos_tagFold (g : TagAcc → TagAcc) (hg0 : 1 ≤ (g tagZero).count)
    (hg : ∀ v, 1 ≤ v.count → 1 ≤ (g v).count) (ts : List String) :
    ∀ acc, (∀ e ∈ acc, 1 ≤ (e.2 : TagAcc).count) →
      ∀ e ∈ ts.foldl (fun a t => if t = "" then a else updateAssoc t tagZero g a)
        acc, 1 ≤ e.2.count := by
  induction ts with
  | nil => exact fun _ h => h
  | cons t ts ih =>
    intro acc h
    rw [List.foldl_cons]
    apply ih
    by_cases ht : t = ""
    · rw [if_pos ht]; exact h
    · rw [if_neg ht]
      exact snd_mem_updateAssoc t tagZero g h hg0 hg

theorem countPos_accRows (b : Bool) (rows : List TagRow) :
    ∀ acc, (∀ e ∈ acc, 1 ≤ (e.2 : TagAcc).count) →
      ∀ e ∈ rows.foldl (accRow b) acc, 1 ≤ e.2.count := by
  induction rows with
  | nil => exact fun _ h => h
  | cons row rows ih =>
    intro acc h
    rw [List.foldl_cons]
    exact ih _ (countPos_tagFold _ (Nat.le_refl 1)
      (fun v hv => Nat.le_succ_of_le hv) _ acc h)

/-- Claim C10 (confirmed): every TagStat produced by the aggregation has
count at least 1 when its averages are computed — a tag only enters the
map together with its first counted occurrence — so the average and
engagement divisions all have positive denominators: each average
multiplies back to its total exactly. -/
theorem tagStat_count_pos (rows : List TagRow) (st : TagStat)
    (hst : st ∈ analyzeTagPerformance rows) :
    1 ≤ st.count ∧
    st.avgViews * (st.count : ℚ) = (st.views : ℚ) ∧
    st.avgReactions * (st.count : ℚ) = (st.reactions : ℚ) ∧
    st.avgComments * (st.count : ℚ) = (st.comments : ℚ) ∧
    st.engagement * ((max st.views 1 : Nat) : ℚ) =
      ((st.reactions + st.comments : Nat) : ℚ) := by
  have main : ∀ b : Bool, st ∈ sortDesc (fun s => s.views)
      ((rows.foldl (accRow b) []).map finalizeTag) →
      (1 ≤ st.count ∧
        st.avgViews * (st.count : ℚ) = (st.views : ℚ) ∧
        st.avgReactions * (st.count : ℚ) = (st.reactions : ℚ) ∧
        st.avgComments * (st.count : ℚ) = (st.comments : ℚ) ∧
        st.engagement * ((max st.views 1 : Nat) : ℚ) =
          ((st.reactions + st.comments : Nat) : ℚ)) := by
    intro b hmem
    have hmem2 : st ∈ (rows.foldl (accRow b) []).map finalizeTag :=
      ((sortDesc_perm _ _).mem_iff).mp hmem
    obtain ⟨e, he, rfl⟩ := List.mem_map.mp hmem2
    have hc : 1 ≤ e.2.count := countPos_accRows b rows [] (by simp) e he
    have hcQ : ((e.2.count : Nat) : ℚ) ≠ 0 := Nat.cast_ne_zero.mpr (by omega)
    have hm1 : 1 ≤ max e.2.views 1 := le_max_right _ _
    have hmQ : (((max e.2.views 1 : Nat)) : ℚ) ≠ 0 :=
      Nat.cast_ne_zero.mpr (by omega)
    exact ⟨hc, div_mul_cancel₀ _ hcQ, div_mul_cancel₀ _ hcQ,
      div_mul_cancel₀ _ hcQ, div_mul_cancel₀ _ hmQ⟩
  unfold analyzeTagPerformance at hst
  split_ifs at hst with h1 h2
  · exact main true hst
  · exact main false hst
  · exact absurd hst (List.not_mem_nil st)

/-- Witness for the C10 theorem at the scenario-B input. -/
theorem tagStat_count_pos_witness :
    1 ≤ statPython.count ∧
    statPython.avgReactions * (statPython.count : ℚ) =
      (statPython.reactions : ℚ) := by
  have h := tagStat_count_pos rows6 statPython (by decide)
  exact ⟨h.1, h.2.2.1⟩

/-- Claim C6 counterexample (the claim is corrected): scenario B yields one
TagStat for "python" with count 3, total reactions 60, total comments 6
and avg reactions 20 as claimed — but its engagement is
(60 + 6) / max(300, 1) = 66/300 = 0.22, since the TagStat engagement
divides by the tag's TOTAL views (300), not by one article's views (100);
the claimed value 0.66 = 33/50 is refuted. -/
theorem tagPerformance_scenarioB_counterexample :
    analyzeTagPerformance rows6 =
      [⟨"python", 3, 300, 60, 6, 100, 20, 2, 11 / 50⟩] ∧
    (11 : ℚ) / 50 ≠ 33 / 50 :=
  ⟨by decide, by decide⟩

/-- Claim C6 amended: `tagPerformance` accumulates one TagStat per distinct
tag over every (article, tag) pair, computes averages after accumulation,
and returns the stats sorted descending by total views; on scenario B it
yields exactly one TagStat with count 3, total reactions 60, total
comments 6, avg reactions 20, and engagement 66/300 = 0.22 (not 0.66). -/
theorem tagPerformance_scenarioB_amended :
    (∀ rows : List TagRow,
      (analyzeTagPerformance rows).Pairwise (fun a b => b.views ≤ a.views)) ∧
    (∀ rows : List TagRow,
      ((analyzeTagPerformance rows).map (fun s => s.tag)).Nodup) ∧
    analyzeTagPerformance rows6 =
      [⟨"python", 3, 300, 60, 6, 100, 20, 2, 11 / 50⟩] := by
  refine ⟨?_, ?_, by decide⟩
  · intro rows
    unfold analyzeTagPerformance
    split_ifs
    · exact sortDesc_sorted _ _
    · exact sortDesc_sorted _ _
    · exact List.Pairwise.nil
  · intro rows
    have htags : ∀ b : Bool,
        ((sortDesc (fun s : TagStat => s.views)
          ((rows.foldl (accRow b) []).map finalizeTag)).map
            (fun s => s.tag)).Nodup := by
      intro b
      have hperm := (sortDesc_perm (fun s : TagStat => s.views)
        ((rows.foldl (accRow b) []).map finalizeTag)).map (fun s => s.tag)
      apply hperm.nodup_iff.mpr
      have h2 : ((rows.foldl (accRow b) []).map finalizeTag).map
          (fun s => s.tag) = (rows.foldl (accRow b) []).map Prod.fst := by
        rw [List.map_map]
        rfl
      rw [h2]
      exact nodupKeys_accRows b rows [] (by simp)
    unfold analyzeTagPerformance
    split_ifs
    · exact htags true
    · exact htags false
    · exact List.nodup_nil

/-! ## Tag multiplicity facts (claim C8) -/

theorem statCountOf_cons (t : String) (s : TagStat) (l : List TagStat) :
    statCountOf t (s :: l) =
      (if s.tag = t then s.count else 0) + statCountOf t l := by
  by_cases h : s.tag = t <;> simp [statCountOf, List.filter_cons, h]

theorem accCountOf_cons (t : String) (e : String × TagAcc)
    (l : List (String × TagAcc)) :
    accCountOf t (e :: l) =
      (if e.1 = t then e.2.count else 0) + accCountOf t l := by
  by_cases h : e.1 = t <;> simp [accCountOf, List.filter_cons, h]

theorem accCountOf_update (t u : String) (v r c : Nat)
    (acc : List (String × TagAcc)) :
    accCountOf t (updateAssoc u tagZero (tagAdd v r c) acc) =
      accCountOf t acc + (if u = t then 1 else 0) := by
  induction acc with
  | nil =>
    by_cases h : u = t <;>
      simp [updateAssoc, accCountOf, List.filter_cons, h, tagAdd, tagZero]
  | cons e rest ih =>
    by_cases h : e.1 = u
    · rw [show updateAssoc u tagZero (tagAdd v r c) (e :: rest) =
          (e.1, tagAdd v r c e.2) :: rest by simp [updateAssoc, h]]
      rw [accCountOf_cons, accCountOf_cons]
      by_cases ht : e.1 = t
      · have hut : u = t := by rw [← h]; exact ht
        simp only [ht, if_pos, hut, tagAdd]
        omega
      · have hut : ¬ u = t := fun hc => ht (by rw [h]; exact hc)
        simp [ht, hut]
    · rw [show updateAssoc u tagZero (tagAdd v r c) (e :: rest) =
          e :: updateAssoc u tagZero (tagAdd v r c) rest by simp [updateAssoc, h]]
      rw [accCountOf_cons, accCountOf_cons, ih]
      omega

theorem accCountOf_tagFold (t : String) (ht : ¬ t = "") (v r c : Nat)
    (ts : List String) :
    ∀ acc, accCountOf t
        (ts.foldl (fun a u => if u = "" then a
          else updateAssoc u tagZero (tagAdd v r c) a) acc) =
      accCountOf t acc + ts.count t := by
  induction ts with
  | nil => intro acc; simp
  | cons u ts ih =>
    intro acc
    rw [List.foldl_cons, ih, List.count_cons]
    by_cases hu : u = ""
    · rw [if_pos hu]
      have hne : (u == t) = false := by
        rw [hu]
        exact beq_eq_false_iff_ne.mpr (fun hc => ht hc.symm)
      simp [hne]
    · rw [if_neg hu, accCountOf_update]
      by_cases hut : u = t
      · simp only [hut, beq_self_eq_true, if_true, if_pos]
        omega
      · have hne : (u == t) = false := beq_eq_false_iff_ne.mpr hut
        simp [hne, hut]

theorem accCountOf_accRows (b : Bool) (t : String) (ht : ¬ t = "")
    (rows : List TagRow) :
    ∀ acc, accCountOf t (rows.foldl (accRow b) acc) =
      accCountOf t acc + tagOccCount b t rows := by
  induction rows with
  | nil => intro acc; simp [tagOccCount]
  | cons row rows ih =>
    intro acc
    rw [List.foldl_cons, ih]
    have hstep : accCountOf t (accRow b acc row) = accCountOf t acc +
        (pandasRowTags (if b then row.tags else row.tagList)).count t :=
      accCountOf_tagFold t ht row.views row.reactions row.comments _ acc
    rw [hstep]
    unfold tagOccCount
    rw [List.map_cons, List.sum_cons]
    omega

theorem statCountOf_map_finalize (t : String) (acc : List (String × TagAcc)) :
    statCountOf t (acc.map finalizeTag) = accCountOf t acc := by
  induction acc with
  | nil => rfl
  | cons e rest ih =>
    rw [List.map_cons, statCountOf_cons, accCountOf_cons, ih]
    have htag : (finalizeTag e).tag = e.1 := rfl
    have hcnt : (finalizeTag e).count = e.2.count := rfl
    rw [htag, hcnt]

theorem statCountOf_perm (t : String) {l1 l2 : List TagStat}
    (h : l1.Perm l2) : statCountOf t l1 = statCountOf t l2 := by
  unfold statCountOf
  exact ((h.filter _).map _).sum_eq

/-- Claim C8 counterexample (the claim is corrected): a comma-joined tag
string with a repeated tag is split, stripped and cleared of empties but
NOT deduplicated — the per-article tag sequence has a duplicate, and a
single article yields a TagStat with count 2. -/
theorem tagDedup_counterexample :
    pandasRowTags (some (TagsVal.str "python,python")) = ["python", "python"] ∧
    ¬ (pandasRowTags (some (TagsVal.str "python,python"))).Nodup ∧
    analyzeTagPerformance rows8 =
      [⟨"python", 2, 200, 20, 2, 100, 10, 1, 11 / 100⟩] :=
  ⟨by decide, by decide, by decide⟩

/-- Claim C8 amended: tag ingestion accepts either a list or a single
comma-separated string (split on commas, stripped, empties dropped), but
duplicates are preserved, not normalized away: the count recorded for a
nonempty tag equals the total number of its occurrences across all
(article, tag-occurrence) pairs, counting a duplicate inside one article
once per occurrence. -/
theorem tagMultiplicity_amended (rows : List TagRow) (t : String)
    (ht : t ≠ "") :
    statCountOf t (analyzeTagPerformance rows) =
      if rows.any (fun r => r.tags.isSome) then tagOccCount true t rows
      else if rows.any (fun r => r.tagList.isSome) then tagOccCount false t rows
      else 0 := by
  have main : ∀ b : Bool, statCountOf t (sortDesc (fun s => s.views)
      ((rows.foldl (accRow b) []).map finalizeTag)) = tagOccCount b t rows := by
    intro b
    rw [statCountOf_perm t (sortDesc_perm _ _), statCountOf_map_finalize,
      accCountOf_accRows b t ht rows []]
    simp [accCountOf]
  unfold analyzeTagPerformance
  split_ifs with h1 h2
  · exact main true
  · exact main false
  · rfl

/-- Witness for the amended C8 theorem: the duplicated tag of `rows8` is
counted twice. -/
theorem tagMultiplicity_witness :
    statCountOf "python" (analyzeTagPerformance rows8) = 2 := by
  have h := tagMultiplicity_amended rows8 "python" (by decide)
  exact h.trans (by decide)

/-! ## Recommendation facts (claim C7) -/

/-- Claim C7 counterexample (the claim is corrected): on `rows7` the
emitted *top performing* group holds tags d, a, b — because the list is
re-sorted by avg reactions + comments before the top 3 are taken — while
the 3 TagStats with the highest total views are a (1000), b (900) and
c (800): tag c is excluded even though tag d has total views 1. -/
theorem topPerforming_counterexample :
    (generateTagRecommendations rows7).find?
        (fun g => g.rtype == "top_performing") = some topGroup7 ∧
    topGroup7.tags = ["d", "a", "b"] ∧
    (analyzeTagPerformance rows7).map (fun s => (s.tag, s.views)) =
      [("a", 1000), ("b", 900), ("c", 800), ("d", 1)] :=
  ⟨by decide, by decide, by decide⟩

theorem filter_topPerforming_underGroup (rows : List TagRow) :
    (underGroupOf rows).filter (fun g => g.rtype == "top_performing") = [] := by
  unfold underGroupOf
  split_ifs <;> simp

theorem filter_topPerforming_comboGroup (rows : List TagRow) :
    (comboGroupOf rows).filter (fun g => g.rtype == "top_performing") = [] := by
  unfold comboGroupOf
  split_ifs <;> simp

theorem filter_topPerforming_trendGroup (rows : List TagRow) :
    (trendGroupOf rows).filter (fun g => g.rtype == "top_performing") = [] := by
  unfold trendGroupOf
  split_ifs <;> simp

/-- Claim C7 amended: the *top performing* group is emitted exactly when at
least 3 distinct tags exist (no empty group otherwise), and when emitted
it contains the first 3 TagStats of the performance list re-sorted
descending by avg reactions + avg comments — each dominating every
excluded stat on that metric — not the 3 with the highest total views. -/
theorem topPerforming_amended (rows : List TagRow) :
    (((generateTagRecommendations rows).filter
        (fun g => g.rtype == "top_performing")).length =
      if 3 ≤ (analyzeTagPerformance rows).length then 1 else 0) ∧
    (∀ g ∈ generateTagRecommendations rows, g.rtype = "top_performing" →
      g.tags = ((tpSorted rows).take 3).map (fun s => s.tag) ∧
      ∀ x ∈ (tpSorted rows).take 3, ∀ y ∈ (tpSorted rows).drop 3,
        y.avgReactions + y.avgComments ≤ x.avgReactions + x.avgComments) := by
  have hlen : (tpSorted rows).length = (analyzeTagPerformance rows).length :=
    (sortDesc_perm _ _).length_eq
  constructor
  · rw [show generateTagRecommendations rows = topGroupOf rows ++
        underGroupOf rows ++ comboGroupOf rows ++ trendGroupOf rows from rfl]
    rw [List.filter_append, List.filter_append, List.filter_append,
      filter_topPerforming_underGroup, filter_topPerforming_comboGroup,
      filter_topPerforming_trendGroup]
    simp only [List.append_nil]
    unfold topGroupOf
    rw [hlen]
    split_ifs with h
    · simp
    · rfl
  · intro g hg hgt
    have hother : ∀ gs : List RecGroup,
        gs.filter (fun x => x.rtype == "top_performing") = [] →
        g ∈ gs → False := by
      intro gs hgs hmem
      have : g ∈ gs.filter (fun x => x.rtype == "top_performing") := by
        apply List.mem_filter.mpr
        exact ⟨hmem, by simp [hgt]⟩
      rw [hgs] at this
      exact List.not_mem_nil g this
    rw [show generateTagRecommendations rows = topGroupOf rows ++
        underGroupOf rows ++ comboGroupOf rows ++ trendGroupOf rows from rfl]
      at hg
    rcases List.mem_append.mp hg with hg1 | hg4
    rotate_left
    · exact absurd hg4 (fun h => hother _ (filter_topPerforming_trendGroup rows) h)
    rcases List.mem_append.mp hg1 with hg2 | hg3
    rotate_left
    · exact absurd hg3 (fun h => hother _ (filter_topPerforming_comboGroup rows) h)
    rcases List.mem_append.mp hg2 with hgtop | hgu
    rotate_left
    · exact absurd hgu (fun h => hother _ (filter_topPerforming_underGroup rows) h)
    unfold topGroupOf at hgtop
    split_ifs at hgtop with hc
    · have hgeq : g = ⟨"top_performing", "Top Performing Tags",
          ((tpSorted rows).take 3).map (fun s => s.tag), []⟩ := by
        simpa using hgtop
      subst hgeq
      refine ⟨rfl, ?_⟩
      have hsor : (tpSorted rows).Pairwise
          (fun a b => b.avgReactions + b.avgComments ≤
            a.avgReactions + a.avgComments) :=
        sortDesc_sorted (fun s : TagStat => s.avgReactions + s.avgComments)
          (analyzeTagPerformance rows)
      have happ : ((tpSorted rows).take 3 ++ (tpSorted rows).drop 3).Pairwise
          (fun a b => b.avgReactions + b.avgComments ≤
            a.avgReactions + a.avgComments) := by
        rw [List.take_append_drop]
        exact hsor
      have hsplit := List.pairwise_append.mp happ
      exact fun x hx y hy => hsplit.2.2 x hx y hy
    · exact absurd hgtop (List.not_mem_nil g)

/-- Witness for the amended C7 theorem: the concrete emitted group on
`rows7` is the take-3 of the engagement-sorted performance list. -/
theorem topPerforming_amended_witness :
    topGroup7.tags = ((tpSorted rows7).take 3).map (fun s => s.tag) :=
  ((topPerforming_amended rows7).2 topGroup7 (by decide) (by decide)).1

end DevTo
